import Mathlib

/-!
Shallow embedding of the sound-generator sequencer core: pitch producers and
the scale quantizer (src/pitch.rs), trigger producers and the rhythm divider
(src/trigger.rs), and the engine-thread command handling and tick
(src/sequencer.rs).

Modelling conventions:
* Rust `u32`/`usize` values become `Nat`; `f32` pitch steps, tempos and
  durations become `ℚ` (the code's arithmetic on them is exact at the inputs
  the claims use); octaves become `Int`.
* `pitch_calc::Letter` is modelled by its pitch-class, a `Nat`, ordered as the
  crate orders letters (ascending by pitch-class), since the quantizer only
  compares and sorts letters.
* A Rust panic (vector index out of range, `u32` underflow, division or
  remainder by zero) is modelled by `Option.none`.
* The wrapped `Box<dyn PitchModule>` / `Box<dyn TriggerModule>` inputs of the
  quantizer, the rhythm divider and the engine thread are modelled by passing
  in the value the wrapped module would produce when polled (and, for the
  engine thread, generic producer states with their tick functions).
-/

namespace SoundGen

/-- The `Trigger` enum from src/trigger.rs: `Off` is Silence, `On` is Fire. -/
inductive Trigger where
  | Off : Trigger
  | On : Trigger
deriving DecidableEq, Repr

/-- `Trigger::from_bool` from src/trigger.rs. -/
def Trigger.from_bool (b : Bool) : Trigger :=
  if b then Trigger.On else Trigger.Off

/-- The `RANDOM_PROBABILITY` constant (`1.0`) from src/trigger.rs. -/
def RANDOM_PROBABILITY : ℚ := 1

/-- Model of the rand crate's `Rng::gen_bool(p)`: the generator draws a value
`u` uniformly from `[0, 1)` and the call returns `u < p`.  The draw is made
an explicit argument so the result can be stated for every state of the
random source. -/
def genBool (p : ℚ) (u : ℚ) : Bool :=
  decide (u < p)

/-- `RandomTriggerProducer::tick` from src/trigger.rs, with the random draw
`u ∈ [0, 1)` of its rng made explicit. -/
def RandomTriggerProducer.tick (u : ℚ) : Trigger :=
  Trigger.from_bool (genBool RANDOM_PROBABILITY u)

/-- `couter_calculation` from src/trigger.rs.  `none` models a panic: `u32`
underflow computing `factor + notes_per_beat - 1` (both zero), division by
zero (`notes_per_beat = 0`), or remainder by zero (the computed divisor is
zero).  Note the first Rust condition `counter == 0 && counter == factor`
can only hold when `factor` is also 0. -/
def couter_calculation (counter factor notes_per_beat : Nat) : Option Bool :=
  if counter = 0 ∧ counter = factor then some true
  else if factor + notes_per_beat = 0 then none
  else if notes_per_beat = 0 then none
  else
    let d := (factor + notes_per_beat - 1) / notes_per_beat
    if d = 0 then none
    else some (decide (counter % d = 0))

/-- The `RhythmDivider` struct from src/trigger.rs (without the boxed input
module, which is passed to `tick` as the value it would produce). -/
structure RhythmDivider where
  factor : Nat
  counter : Nat
  notes_per_beat : List Nat
  current_beat_index : Nat
  current_beat_note : Nat
deriving DecidableEq, Repr

/-- `RhythmDivider::new` from src/trigger.rs. -/
def RhythmDivider.new (factor : Nat) (notes_per_beat : List Nat) : RhythmDivider :=
  { factor := factor, counter := 0, notes_per_beat := notes_per_beat,
    current_beat_index := 0, current_beat_note := 0 }

/-- `RhythmDivider::tick` from src/trigger.rs.  `input` is the value the
wrapped trigger module would return if polled; the returned `Bool` records
whether the wrapped module was actually polled.  On a fire the counter is
reset to 0 and the per-slot note counter incremented; the trailing
unconditional `self.counter += 1` of the source then leaves the counter
at 1 (resp. `counter + 1` on a non-fire).  `none` models a panic (index out
of range or a panic inside `couter_calculation`). -/
def RhythmDivider.tick (s : RhythmDivider) (input : Trigger) :
    Option (Trigger × Bool × RhythmDivider) :=
  match s.notes_per_beat[s.current_beat_index]? with
  | none => none
  | some npbCur =>
    let advanced :=
      if s.current_beat_note = npbCur ∧ s.counter = s.factor then
        (if s.current_beat_index = 3 then 0 else s.current_beat_index + 1, 0)
      else
        (s.current_beat_index, s.current_beat_note)
    match s.notes_per_beat[advanced.1]? with
    | none => none
    | some npb =>
      match couter_calculation s.counter s.factor npb with
      | none => none
      | some fire =>
        if fire then
          some (input, true,
            { s with counter := 1, current_beat_index := advanced.1,
                     current_beat_note := advanced.2 + 1 })
        else
          some (Trigger.Off, false,
            { s with counter := s.counter + 1, current_beat_index := advanced.1,
                     current_beat_note := advanced.2 })

/-- Runs `n` ticks of a `RhythmDivider` with a wrapped module that always
fires (the `RandomTriggerProducer` at probability 1), recording each tick's
output together with the slot index after the tick. -/
def rdRun : Nat → RhythmDivider → Option (List (Trigger × Nat))
  | 0, _ => some []
  | n + 1, s =>
    match RhythmDivider.tick s Trigger.On with
    | none => none
    | some (out, _, s2) =>
      match rdRun n s2 with
      | none => none
      | some l => some ((out, s2.current_beat_index) :: l)

/-- The `RampPitchProducer` struct from src/pitch.rs; `min` and `max` are the
stored `f32` steps of the configured pitches. -/
structure RampPitchProducer where
  cycle_length : Nat
  min : ℚ
  max : ℚ
  counter : Nat
deriving DecidableEq, Repr

/-- `RampPitchProducer::new` from src/pitch.rs. -/
def RampPitchProducer.new (cycle_length : Nat) (min max : ℚ) : RampPitchProducer :=
  { cycle_length := cycle_length, min := min, max := max, counter := 0 }

/-- `RampPitchProducer::tick` from src/pitch.rs: returns the emitted step and
the updated producer. -/
def RampPitchProducer.tick (s : RampPitchProducer) : ℚ × RampPitchProducer :=
  let slope : ℚ :=
    if s.cycle_length > 1 then (s.max - s.min) / ((s.cycle_length - 1 : Nat) : ℚ) else 0
  let step := s.min + slope * (s.counter : ℚ)
  let counter2 := if s.counter = s.cycle_length - 1 then 0 else s.counter + 1
  (step, { s with counter := counter2 })

/-- The outputs of `n` successive `RampPitchProducer::tick` calls. -/
def rampRun : Nat → RampPitchProducer → List ℚ
  | 0, _ => []
  | n + 1, s => (RampPitchProducer.tick s).1 :: rampRun n (RampPitchProducer.tick s).2

/-- The `RampPitchProducer` state after `n` ticks. -/
def rampIter : Nat → RampPitchProducer → RampPitchProducer
  | 0, s => s
  | n + 1, s => rampIter n (RampPitchProducer.tick s).2

/-- The `SquarePitchProducer` struct from src/pitch.rs. -/
structure SquarePitchProducer where
  cycle_length : Nat
  min : ℚ
  max : ℚ
  counter : Nat
deriving DecidableEq, Repr

/-- `SquarePitchProducer::new` from src/pitch.rs. -/
def SquarePitchProducer.new (cycle_length : Nat) (min max : ℚ) : SquarePitchProducer :=
  { cycle_length := cycle_length, min := min, max := max, counter := 0 }

/-- `SquarePitchProducer::tick` from src/pitch.rs: the counter is incremented
first; the first `cycle_length / 2` positions yield `min`, the rest `max`,
and the counter resets to 0 exactly when it reaches `cycle_length` (inside
the `max` branch). -/
def SquarePitchProducer.tick (s : SquarePitchProducer) : ℚ × SquarePitchProducer :=
  let c := s.counter + 1
  if c ≤ s.cycle_length / 2 then
    (s.min, { s with counter := c })
  else
    (s.max, { s with counter := if c = s.cycle_length then 0 else c })

/-- The outputs of `n` successive `SquarePitchProducer::tick` calls. -/
def squareRun : Nat → SquarePitchProducer → List ℚ
  | 0, _ => []
  | n + 1, s => (SquarePitchProducer.tick s).1 :: squareRun n (SquarePitchProducer.tick s).2

/-- The `SquarePitchProducer` state after `n` ticks. -/
def squareIter : Nat → SquarePitchProducer → SquarePitchProducer
  | 0, s => s
  | n + 1, s => squareIter n (SquarePitchProducer.tick s).2

/-- The `PitchQuantizer` struct from src/pitch.rs (without the boxed input
module, whose output is passed to `tick` directly).  A scale entry is a
pitch-class. -/
structure PitchQuantizer where
  scale : List Nat
deriving DecidableEq, Repr

/-- `PitchQuantizer::new` from src/pitch.rs: stores the scale unchanged, with
no validation of any kind (in particular an empty scale is accepted). -/
def PitchQuantizer.new (scale : List Nat) : PitchQuantizer :=
  { scale := scale }

/-- The `for letter in &self.scale` loop of `PitchQuantizer::tick`: on the
(sorted) scale, return the note unchanged on an exact pitch-class match,
return the first strictly greater entry at the same octave, and `none` when
the loop falls through. -/
def quantizeLoop : List Nat → Nat → Int → Option (Nat × Int)
  | [], _, _ => none
  | letter :: rest, l, o =>
    if letter = l then some (l, o)
    else if l < letter then some (letter, o)
    else quantizeLoop rest l o

/-- `PitchQuantizer::tick` from src/pitch.rs, applied to the wrapped module's
output `(l, o)` (pitch-class and octave).  The source first sorts the stored
scale in place, then scans it; when the scan falls through it returns
`scale[0]` (the minimum of the sorted scale) one octave up - which panics
(`none`) on an empty scale. -/
def PitchQuantizer.tick (q : PitchQuantizer) (l : Nat) (o : Int) : Option (Nat × Int) :=
  let sorted := q.scale.insertionSort (· ≤ ·)
  match quantizeLoop sorted l o with
  | some r => some r
  | none =>
    match sorted with
    | [] => none
    | a :: _ => some (a, o + 1)

/-- The `VELOCITY` constant (`0x64`) from src/sequencer.rs. -/
def VELOCITY : Nat := 0x64

/-- Observable effects of one engine tick: the three-byte MIDI messages sent
on the connection, and the blocking sleep (in milliseconds) between note-on
and note-off. -/
inductive MidiEvent where
  | programChange (instrument : Nat)
  | noteOn (note velocity : Nat)
  | sleepMs (ms : ℚ)
  | noteOff (note velocity : Nat)
deriving DecidableEq, Repr

/-- The `SequencerCommand` enum from src/sequencer.rs, generic over the
producer state types.  Rhythm-pattern entries are `NoteDurationLetter`
indices (`Nat`). -/
inductive SequencerCommand (P T : Type) where
  | Start : SequencerCommand P T
  | Stop : SequencerCommand P T
  | SetPitchProducer (pp : P) : SequencerCommand P T
  | SetTriggerProducer (tp : T) : SequencerCommand P T
  | SetInstrument (i : Nat) : SequencerCommand P T
  | SetRhythmPattern (rp : List Nat) : SequencerCommand P T
  | SetTempo (t : ℚ) : SequencerCommand P T

/-- The `SequencerThread` state from src/sequencer.rs (without the receiver
and the MIDI connection, which are modelled by the command list passed to
`tick` and the returned `MidiEvent` list). -/
structure SequencerThread (P T : Type) where
  pitch_producer : P
  trigger_producer : T
  is_playing : Bool
  instrument : Nat
  tempo : ℚ
  rhythm_pattern : List Nat
  current_rhythm_index : Nat

/-- One arm of the command-draining `match` in `SequencerThread::tick`. -/
def applyCommand {P T : Type} (s : SequencerThread P T) (c : SequencerCommand P T) :
    SequencerThread P T :=
  match c with
  | SequencerCommand.Start => if ¬ s.is_playing then { s with is_playing := true } else s
  | SequencerCommand.Stop => if s.is_playing then { s with is_playing := false } else s
  | SequencerCommand.SetPitchProducer pp => { s with pitch_producer := pp }
  | SequencerCommand.SetTriggerProducer tp => { s with trigger_producer := tp }
  | SequencerCommand.SetInstrument i => { s with instrument := i }
  | SequencerCommand.SetRhythmPattern rp =>
      { s with rhythm_pattern := rp, current_rhythm_index := 0 }
  | SequencerCommand.SetTempo t => { s with tempo := t }

/-- The `for command in self.receiver.try_iter()` loop of
`SequencerThread::tick`: applies the pending commands in enqueue order. -/
def drainCommands {P T : Type} (s : SequencerThread P T) :
    List (SequencerCommand P T) → SequencerThread P T
  | [] => s
  | c :: rest => drainCommands (applyCommand s c) rest

/-- `SequencerThread::tick` from src/sequencer.rs.  `pitchTick` and
`trigTick` are the tick functions of the owned producer modules (`pitchTick`
already yields the MIDI note number, `pitch.step() as u8` in the source);
`noteDuration` is the `NOTE_DURATION` beat-fraction lookup table from the
assets module (external opaque data); `cmds` are the commands drained this
tick.  `none` models the panic of indexing `rhythm_pattern` out of range. -/
def SequencerThread.tick {P T : Type} (pitchTick : P → Nat × P)
    (trigTick : T → Trigger × T) (noteDuration : Nat → ℚ)
    (cmds : List (SequencerCommand P T)) (s0 : SequencerThread P T) :
    Option (List MidiEvent × SequencerThread P T) :=
  let s := drainCommands s0 cmds
  if s.is_playing then
    let pr := pitchTick s.pitch_producer
    let tr := trigTick s.trigger_producer
    let s2 := { s with pitch_producer := pr.2, trigger_producer := tr.2 }
    match tr.1 with
    | Trigger.On =>
      match s2.rhythm_pattern[s2.current_rhythm_index]? with
      | none => none
      | some letter =>
        some ([MidiEvent.programChange s2.instrument,
               MidiEvent.noteOn pr.1 VELOCITY,
               MidiEvent.sleepMs (noteDuration letter * 60000 / s2.tempo),
               MidiEvent.noteOff pr.1 VELOCITY],
              { s2 with current_rhythm_index :=
                  (s2.current_rhythm_index + 1) % s2.rhythm_pattern.length })
    | Trigger.Off => some ([], s2)
  else
    some ([], s)

/-- C8: with the default configured probability `RANDOM_PROBABILITY = 1.0`,
`RandomTriggerProducer::tick` returns Fire on every tick, for every state of
the random source (every uniform draw `u ∈ [0, 1)`). -/
theorem claim_C8_random_trigger_always_fires (u : ℚ) (_h0 : 0 ≤ u) (h1 : u < 1) :
    RandomTriggerProducer.tick u = Trigger.On := by
  simp [RandomTriggerProducer.tick, genBool, Trigger.from_bool, RANDOM_PROBABILITY, h1]

/-- Witness for C8 at the concrete draw `u = 1/2`. -/
theorem claim_C8_witness : RandomTriggerProducer.tick (1 / 2) = Trigger.On :=
  claim_C8_random_trigger_always_fires (1 / 2) (by norm_num) (by norm_num)

/-- C3 (the code violates the claim): `PitchQuantizer::new` performs no
validation, so constructing a quantizer with an empty scale succeeds (the
constructed quantizer simply stores the empty scale), and the failure is
deferred to `tick`, which panics (`none`, from indexing `scale[0]` on an
empty vector) on every input.  The spec requires a configuration error at
construction time instead. -/
theorem claim_C3_empty_scale_not_rejected_at_construction :
    (PitchQuantizer.new ([] : List Nat)).scale = [] ∧
      ∀ (l : Nat) (o : Int), PitchQuantizer.tick (PitchQuantizer.new []) l o = none :=
  ⟨rfl, fun _ _ => rfl⟩

/-- C9: applying `Start` when already playing, or `Stop` when already
stopped, leaves the entire engine-thread state unchanged (the whole record is
equal, so no field is modified). -/
theorem claim_C9_start_stop_idempotent {P T : Type} (s : SequencerThread P T) :
    (s.is_playing = true → applyCommand s SequencerCommand.Start = s) ∧
    (s.is_playing = false → applyCommand s SequencerCommand.Stop = s) := by
  constructor <;> intro h <;> simp [applyCommand, h]

/-- Witness for C9 on a concrete already-playing state. -/
theorem claim_C9_witness :
    applyCommand (⟨(), (), true, 0, 120, [0], 0⟩ : SequencerThread Unit Unit)
        SequencerCommand.Start
      = ⟨(), (), true, 0, 120, [0], 0⟩ :=
  (claim_C9_start_stop_idempotent ⟨(), (), true, 0, 120, [0], 0⟩).1 rfl

/-- C7: `SquarePitchProducer::tick` yields `min` exactly on the first
`cycle_length / 2` ticks of a cycle and `max` on the rest, the counter
resetting to 0 exactly on reaching `cycle_length`; in particular for
`cycle_length = 4` the outputs are `min, min, max, max, min, ...` and the
state returns to its initial value after exactly `cycle_length` ticks. -/
theorem claim_C7_square_producer :
    (∀ (s : SquarePitchProducer),
      (SquarePitchProducer.tick s).1
        = if s.counter + 1 ≤ s.cycle_length / 2 then s.min else s.max) ∧
    (∀ (s : SquarePitchProducer),
      (SquarePitchProducer.tick s).2.counter
        = if s.counter + 1 ≤ s.cycle_length / 2 then s.counter + 1
          else if s.counter + 1 = s.cycle_length then 0 else s.counter + 1) ∧
    (∀ (mn mx : ℚ),
      squareRun 5 (SquarePitchProducer.new 4 mn mx) = [mn, mn, mx, mx, mn]) ∧
    (∀ (mn mx : ℚ),
      squareIter 4 (SquarePitchProducer.new 4 mn mx) = SquarePitchProducer.new 4 mn mx) := by
  refine ⟨fun s => ?_, fun s => ?_, fun mn mx => ?_, fun mn mx => ?_⟩
  · by_cases h : s.counter + 1 ≤ s.cycle_length / 2 <;> simp [SquarePitchProducer.tick, h]
  · by_cases h : s.counter + 1 ≤ s.cycle_length / 2 <;> simp [SquarePitchProducer.tick, h]
  · simp [squareRun, SquarePitchProducer.tick, SquarePitchProducer.new]
  · simp [squareIter, SquarePitchProducer.tick, SquarePitchProducer.new]

/-- C6: `RampPitchProducer::tick` ascends linearly from `min` with slope
`(max - min) / (cycle_length - 1)` when `cycle_length > 1` (reaching exactly
`max` at counter `cycle_length - 1`) and has slope 0 otherwise, the counter
wrapping to 0 exactly on reaching `cycle_length - 1`; in particular for
`cycle_length = 5`, `min = 0`, `max = 8` the successive outputs are
`0, 2, 4, 6, 8, 0, 2` and the state returns to its initial value after
exactly `cycle_length` ticks. -/
theorem claim_C6_ramp_producer :
    (∀ (s : RampPitchProducer), 1 < s.cycle_length →
      (RampPitchProducer.tick s).1
        = s.min + (s.max - s.min) / ((s.cycle_length - 1 : Nat) : ℚ) * (s.counter : ℚ)) ∧
    (∀ (s : RampPitchProducer), s.cycle_length ≤ 1 →
      (RampPitchProducer.tick s).1 = s.min) ∧
    (∀ (s : RampPitchProducer), 1 < s.cycle_length → s.counter = s.cycle_length - 1 →
      (RampPitchProducer.tick s).1 = s.max) ∧
    (∀ (s : RampPitchProducer),
      (RampPitchProducer.tick s).2.counter
        = if s.counter = s.cycle_length - 1 then 0 else s.counter + 1) ∧
    rampRun 7 (RampPitchProducer.new 5 0 8) = [0, 2, 4, 6, 8, 0, 2] ∧
    rampIter 5 (RampPitchProducer.new 5 0 8) = RampPitchProducer.new 5 0 8 := by
  refine ⟨fun s h => ?_, fun s h => ?_, fun s h hc => ?_, fun s => ?_,
    by norm_num [rampRun, RampPitchProducer.tick, RampPitchProducer.new],
    by norm_num [rampIter, RampPitchProducer.tick, RampPitchProducer.new]⟩
  · simp [RampPitchProducer.tick, h]
  · have h2 : ¬ 1 < s.cycle_length := by omega
    simp [RampPitchProducer.tick, h2]
  · have hne : ((s.cycle_length - 1 : Nat) : ℚ) ≠ 0 := Nat.cast_ne_zero.mpr (by omega)
    simp [RampPitchProducer.tick, h, hc]
    rw [div_mul_cancel₀ _ hne]
    ring
  · simp [RampPitchProducer.tick]

/-- Witness for C6: the tick at counter `cycle_length - 1 = 4` of the ramp
with `cycle_length = 5`, `min = 0`, `max = 8` emits exactly `max`. -/
theorem claim_C6_witness :
    (RampPitchProducer.tick ⟨5, 0, 8, 4⟩).1 = (⟨5, 0, 8, 4⟩ : RampPitchProducer).max :=
  claim_C6_ramp_producer.2.2.1 ⟨5, 0, 8, 4⟩ (by decide) (by decide)

/-- C5: on a tick executed while the playing flag (after draining the
pending commands) is false, the tick emits no MIDI event and the resulting
state is exactly the post-drain state: the producers are not ticked and the
play position, instrument and tempo are untouched by the tick itself. -/
theorem claim_C5_paused_tick_is_inert {P T : Type} (pitchTick : P → Nat × P)
    (trigTick : T → Trigger × T) (noteDuration : Nat → ℚ)
    (cmds : List (SequencerCommand P T)) (s : SequencerThread P T)
    (h : (drainCommands s cmds).is_playing = false) :
    SequencerThread.tick pitchTick trigTick noteDuration cmds s
      = some ([], drainCommands s cmds) := by
  simp [SequencerThread.tick, h]

/-- Witness for C5: a concrete paused tick (a `Stop` command arrives while
playing) emits nothing and only flips the flag. -/
theorem claim_C5_witness :
    SequencerThread.tick (fun _ : Unit => (60, ())) (fun _ : Unit => (Trigger.On, ()))
        (fun _ => 1) [SequencerCommand.Stop]
        (⟨(), (), true, 3, 100, [0], 0⟩ : SequencerThread Unit Unit)
      = some ([], ⟨(), (), false, 3, 100, [0], 0⟩) :=
  claim_C5_paused_tick_is_inert (fun _ : Unit => (60, ())) (fun _ : Unit => (Trigger.On, ()))
    (fun _ => 1) [SequencerCommand.Stop] ⟨(), (), true, 3, 100, [0], 0⟩ rfl

/-- C4: on a playing tick whose trigger result is Fire, the engine emits, in
order, a program change carrying the current instrument, a note-on for the
produced pitch at the fixed velocity, a blocking hold of
`duration_fraction * 60 / tempo` seconds (stored here in milliseconds, hence
the factor 1000) taken from the rhythm-pattern entry at the current play
position, and a note-off for the same note, then advances the play position
by one modulo the pattern length; on a Silence result it emits no MIDI event
and leaves the play position unchanged. -/
theorem claim_C4_fire_emits_note (P T : Type) (pitchTick : P → Nat × P)
    (trigTick : T → Trigger × T) (noteDuration : Nat → ℚ) (s : SequencerThread P T)
    (hplay : s.is_playing = true) :
    (∀ (note : Nat) (pp : P) (tp : T) (letter : Nat),
      pitchTick s.pitch_producer = (note, pp) →
      trigTick s.trigger_producer = (Trigger.On, tp) →
      s.rhythm_pattern[s.current_rhythm_index]? = some letter →
      SequencerThread.tick pitchTick trigTick noteDuration [] s
        = some ([MidiEvent.programChange s.instrument,
                 MidiEvent.noteOn note VELOCITY,
                 MidiEvent.sleepMs (noteDuration letter * 60 / s.tempo * 1000),
                 MidiEvent.noteOff note VELOCITY],
                { s with pitch_producer := pp, trigger_producer := tp,
                         current_rhythm_index :=
                           (s.current_rhythm_index + 1) % s.rhythm_pattern.length })) ∧
    (∀ (note : Nat) (pp : P) (tp : T),
      pitchTick s.pitch_producer = (note, pp) →
      trigTick s.trigger_producer = (Trigger.Off, tp) →
      SequencerThread.tick pitchTick trigTick noteDuration [] s
        = some ([], { s with pitch_producer := pp, trigger_producer := tp })) := by
  constructor
  · intro note pp tp letter hpt htt hpat
    have hdur : noteDuration letter * 60000 / s.tempo
        = noteDuration letter * 60 / s.tempo * 1000 := by ring
    simp [SequencerThread.tick, drainCommands, hplay, hpt, htt, hpat, hdur]
  · intro note pp tp hpt htt
    simp [SequencerThread.tick, drainCommands, hplay, hpt, htt]

/-- Witness for C4: a concrete firing tick (instrument 5, note 60, pattern
entry with duration fraction 1/4 at tempo 120) emits exactly the four
events and advances the play position modulo the pattern length. -/
theorem claim_C4_witness :
    SequencerThread.tick (fun _ : Unit => (60, ())) (fun _ : Unit => (Trigger.On, ()))
        (fun _ => (1 : ℚ) / 4) []
        (⟨(), (), true, 5, 120, [2], 0⟩ : SequencerThread Unit Unit)
      = some ([MidiEvent.programChange 5,
               MidiEvent.noteOn 60 VELOCITY,
               MidiEvent.sleepMs ((1 : ℚ) / 4 * 60 / 120 * 1000),
               MidiEvent.noteOff 60 VELOCITY],
              ⟨(), (), true, 5, 120, [2], (0 + 1) % 1⟩) :=
  (claim_C4_fire_emits_note Unit Unit (fun _ => (60, ())) (fun _ => (Trigger.On, ()))
    (fun _ => (1 : ℚ) / 4) ⟨(), (), true, 5, 120, [2], 0⟩ rfl).1 60 () () 2 rfl rfl rfl

/-- When `factor ≥ 1` and the slot's `notes_per_beat` entry is ≥ 1,
`couter_calculation` cannot panic: it returns the modulo test against the
positive divisor `ceil(factor / notes_per_beat)`. -/
lemma couter_calculation_eq (counter factor npb : Nat) (hf : 1 ≤ factor) (hn : 1 ≤ npb) :
    couter_calculation counter factor npb
      = some (decide (counter % ((factor + npb - 1) / npb) = 0)) := by
  have hd : 1 ≤ (factor + npb - 1) / npb := by
    rw [Nat.one_le_div_iff (by omega)]
    omega
  unfold couter_calculation
  rw [if_neg (by omega : ¬(counter = 0 ∧ counter = factor)),
    if_neg (by omega : ¬factor + npb = 0), if_neg (by omega : ¬npb = 0)]
  show (if (factor + npb - 1) / npb = 0 then none
    else some (decide (counter % ((factor + npb - 1) / npb) = 0))) = _
  rw [if_neg (by omega : ¬(factor + npb - 1) / npb = 0)]

/-- Characterization of one `RhythmDivider::tick` under positive `factor`
and a positive `notes_per_beat` entry at the (possibly advanced) slot
`adv`. -/
lemma RhythmDivider.tick_eq (s : RhythmDivider) (input : Trigger) (npbCur npb : Nat)
    (adv : Nat × Nat)
    (hget0 : s.notes_per_beat[s.current_beat_index]? = some npbCur)
    (hadv : (if s.current_beat_note = npbCur ∧ s.counter = s.factor
             then (if s.current_beat_index = 3 then 0 else s.current_beat_index + 1, 0)
             else (s.current_beat_index, s.current_beat_note)) = adv)
    (hget1 : s.notes_per_beat[adv.1]? = some npb)
    (hf : 1 ≤ s.factor) (hn : 1 ≤ npb) :
    RhythmDivider.tick s input
      = if s.counter % ((s.factor + npb - 1) / npb) = 0 then
          some (input, true,
            { s with counter := 1, current_beat_index := adv.1,
                     current_beat_note := adv.2 + 1 })
        else
          some (Trigger.Off, false,
            { s with counter := s.counter + 1, current_beat_index := adv.1,
                     current_beat_note := adv.2 }) := by
  simp only [RhythmDivider.tick, hget0, hadv, hget1,
    couter_calculation_eq s.counter s.factor npb hf hn]
  by_cases hc : s.counter % ((s.factor + npb - 1) / npb) = 0
  · simp [hc]
  · simp [hc]

/-- C10: for a `RhythmDivider` with `factor ≥ 1`, four `notes_per_beat`
entries all ≥ 1 and a slot index in range, the divisor
`(factor + notes_per_beat[slot] - 1) / notes_per_beat[slot]` of the modulo
test is strictly positive, and `tick` is total (no panic: it returns a
value). -/
theorem claim_C10_rhythm_divider_total (s : RhythmDivider) (input : Trigger)
    (hf : 1 ≤ s.factor) (hlen : s.notes_per_beat.length = 4)
    (hnpb : ∀ x ∈ s.notes_per_beat, 1 ≤ x) (hidx : s.current_beat_index < 4) :
    (∀ npb ∈ s.notes_per_beat, 1 ≤ (s.factor + npb - 1) / npb) ∧
    ∃ r, RhythmDivider.tick s input = some r := by
  constructor
  · intro npb hm
    have h1 := hnpb npb hm
    rw [Nat.one_le_div_iff (by omega)]
    omega
  · have hidx0 : s.current_beat_index < s.notes_per_beat.length := by omega
    have hget0 : s.notes_per_beat[s.current_beat_index]?
        = some (s.notes_per_beat[s.current_beat_index]) :=
      List.getElem?_eq_getElem hidx0
    set adv := (if s.current_beat_note = s.notes_per_beat[s.current_beat_index]
          ∧ s.counter = s.factor
        then (if s.current_beat_index = 3 then 0 else s.current_beat_index + 1, 0)
        else (s.current_beat_index, s.current_beat_note)) with hadv
    have hadvlt : adv.1 < s.notes_per_beat.length := by
      rw [hadv]
      by_cases h1 : s.current_beat_note = s.notes_per_beat[s.current_beat_index]
          ∧ s.counter = s.factor
      · rw [if_pos h1]
        by_cases h2 : s.current_beat_index = 3
        · rw [if_pos h2]
          dsimp only
          omega
        · rw [if_neg h2]
          dsimp only
          omega
      · rw [if_neg h1]
        dsimp only
        omega
    have hget1 : s.notes_per_beat[adv.1]? = some (s.notes_per_beat[adv.1]) :=
      List.getElem?_eq_getElem hadvlt
    have hn : 1 ≤ s.notes_per_beat[adv.1] := hnpb _ (List.getElem_mem hadvlt)
    rw [RhythmDivider.tick_eq s input _ _ adv hget0 hadv.symm hget1 hf hn]
    by_cases hc : s.counter % ((s.factor + s.notes_per_beat[adv.1] - 1)
        / s.notes_per_beat[adv.1]) = 0
    · rw [if_pos hc]
      refine ⟨_, rfl⟩
    · rw [if_neg hc]
      refine ⟨_, rfl⟩

/-- Witness for C10 at a concrete divider state. -/
theorem claim_C10_witness :
    (∀ npb ∈ [1, 1, 1, 1], 1 ≤ ((4 : Nat) + npb - 1) / npb) ∧
    ∃ r, RhythmDivider.tick (RhythmDivider.new 4 [1, 1, 1, 1]) Trigger.On = some r :=
  claim_C10_rhythm_divider_total (RhythmDivider.new 4 [1, 1, 1, 1]) Trigger.On
    (by decide) (by decide) (by decide) (by decide)

/-- C2: under positive `factor` and `notes_per_beat` entries, a
`RhythmDivider` tick fires - polls the wrapped module (outputting its result
and recording the poll), resets the raw-tick counter to 0 (left at 1 by the
unconditional trailing increment of the source) and increments the per-slot
note counter - exactly when the raw-tick counter is 0 or divisible by
`ceil(factor / notes_per_beat[slot])` (with `slot` the possibly-advanced
slot `adv`); on a non-firing tick it returns Silence without polling the
wrapped module.  In particular, with `notes_per_beat = [1,1,1,1]` and
`factor = 4`, exactly one Fire opportunity occurs per 4 raw ticks and the
slot index cycles 0, 1, 2, 3, 0 after each slot's single note has fired. -/
theorem claim_C2_rhythm_divider_fire :
    (∀ (s : RhythmDivider) (input : Trigger) (npbCur npb : Nat) (adv : Nat × Nat),
      s.notes_per_beat[s.current_beat_index]? = some npbCur →
      (if s.current_beat_note = npbCur ∧ s.counter = s.factor
        then (if s.current_beat_index = 3 then 0 else s.current_beat_index + 1, 0)
        else (s.current_beat_index, s.current_beat_note)) = adv →
      s.notes_per_beat[adv.1]? = some npb →
      1 ≤ s.factor → 1 ≤ npb →
      ((s.counter = 0 ∨ s.counter % ((s.factor + npb - 1) / npb) = 0) →
        RhythmDivider.tick s input
          = some (input, true,
              { s with counter := 1, current_beat_index := adv.1,
                       current_beat_note := adv.2 + 1 })) ∧
      (¬ (s.counter = 0 ∨ s.counter % ((s.factor + npb - 1) / npb) = 0) →
        RhythmDivider.tick s input
          = some (Trigger.Off, false,
              { s with counter := s.counter + 1, current_beat_index := adv.1,
                       current_beat_note := adv.2 }))) ∧
    rdRun 17 (RhythmDivider.new 4 [1, 1, 1, 1])
      = some [(Trigger.On, 0), (Trigger.Off, 0), (Trigger.Off, 0), (Trigger.Off, 0),
              (Trigger.On, 1), (Trigger.Off, 1), (Trigger.Off, 1), (Trigger.Off, 1),
              (Trigger.On, 2), (Trigger.Off, 2), (Trigger.Off, 2), (Trigger.Off, 2),
              (Trigger.On, 3), (Trigger.Off, 3), (Trigger.Off, 3), (Trigger.Off, 3),
              (Trigger.On, 0)] := by
  constructor
  · intro s input npbCur npb adv hget0 hadv hget1 hf hn
    rw [RhythmDivider.tick_eq s input npbCur npb adv hget0 hadv hget1 hf hn]
    refine ⟨fun h => ?_, fun h => ?_⟩
    · have hc : s.counter % ((s.factor + npb - 1) / npb) = 0 := by
        rcases h with h | h
        · rw [h]
          exact Nat.zero_mod _
        · exact h
      rw [if_pos hc]
    · have hc : ¬ s.counter % ((s.factor + npb - 1) / npb) = 0 := fun hcc => h (Or.inr hcc)
      rw [if_neg hc]
  · decide

/-- Witness for C2: the very first tick of the `[1,1,1,1]`, `factor = 4`
divider fires, polls the wrapped module, and leaves counter 1 and one note
fired in slot 0. -/
theorem claim_C2_witness :
    RhythmDivider.tick (RhythmDivider.new 4 [1, 1, 1, 1]) Trigger.On
      = some (Trigger.On, true,
          { RhythmDivider.new 4 [1, 1, 1, 1] with
              counter := 1, current_beat_index := 0, current_beat_note := 1 }) :=
  (claim_C2_rhythm_divider_fire.1 (RhythmDivider.new 4 [1, 1, 1, 1]) Trigger.On 1 1 (0, 0)
    rfl (by decide) rfl (by decide) (by decide)).1 (Or.inl rfl)

/-- On a sorted scale containing the pitch-class `l`, the quantizer scan
returns the note unchanged. -/
lemma quantizeLoop_of_mem (o : Int) :
    ∀ (L : List Nat) (l : Nat), L.Sorted (· ≤ ·) → l ∈ L →
      quantizeLoop L l o = some (l, o) := by
  intro L
  induction L with
  | nil =>
    intro l _ hl
    exact absurd hl (List.not_mem_nil l)
  | cons a rest ih =>
    intro l hs hl
    rw [List.sorted_cons] at hs
    by_cases h1 : a = l
    · simp [quantizeLoop, h1]
    · have h2 : l ∈ rest := by
        rcases List.mem_cons.mp hl with h | h
        · exact absurd h.symm h1
        · exact h
      have h3 : ¬ l < a := by
        have := hs.1 l h2
        omega
      simp only [quantizeLoop, if_neg h1, if_neg h3]
      exact ih l hs.2 h2

/-- On a sorted scale not containing `l` but containing an entry above `l`,
the quantizer scan returns the least entry strictly greater than `l`, at the
same octave. -/
lemma quantizeLoop_of_gt (o : Int) :
    ∀ (L : List Nat) (l : Nat), L.Sorted (· ≤ ·) → l ∉ L → (∃ x ∈ L, l < x) →
      ∃ m, quantizeLoop L l o = some (m, o) ∧ m ∈ L ∧ l < m ∧
        ∀ x ∈ L, l < x → m ≤ x := by
  intro L
  induction L with
  | nil =>
    intro l _ _ hex
    rcases hex with ⟨x, hx, _⟩
    exact absurd hx (List.not_mem_nil x)
  | cons a rest ih =>
    intro l hs hl hex
    rw [List.sorted_cons] at hs
    have hal : ¬ a = l := fun h => hl (List.mem_cons.mpr (Or.inl h.symm))
    by_cases h2 : l < a
    · refine ⟨a, ?_, List.mem_cons_self a rest, h2, ?_⟩
      · simp only [quantizeLoop, if_neg hal, if_pos h2]
      · intro x hx _
        rcases List.mem_cons.mp hx with h | h
        · omega
        · exact hs.1 x h
    · have ha : a < l := by omega
      have hl2 : l ∉ rest := fun h => hl (List.mem_cons_of_mem a h)
      have hex2 : ∃ x ∈ rest, l < x := by
        rcases hex with ⟨x, hx, hlx⟩
        rcases List.mem_cons.mp hx with h | h
        · exact absurd hlx (by omega)
        · exact ⟨x, h, hlx⟩
      obtain ⟨m, heq, hm, hlm, hmin⟩ := ih l hs.2 hl2 hex2
      refine ⟨m, ?_, List.mem_cons_of_mem a hm, hlm, ?_⟩
      · simp only [quantizeLoop, if_neg hal, if_neg h2]
        exact heq
      · intro x hx hlx
        rcases List.mem_cons.mp hx with h | h
        · exact absurd hlx (by omega)
        · exact hmin x h hlx

/-- When every scale entry is strictly below `l`, the quantizer scan falls
through. -/
lemma quantizeLoop_of_all_lt (o : Int) :
    ∀ (L : List Nat) (l : Nat), (∀ x ∈ L, x < l) → quantizeLoop L l o = none := by
  intro L
  induction L with
  | nil =>
    intro l _
    rfl
  | cons a rest ih =>
    intro l h
    have ha : a < l := h a (List.mem_cons_self a rest)
    simp only [quantizeLoop, if_neg (by omega : ¬ a = l), if_neg (by omega : ¬ l < a)]
    exact ih l (fun x hx => h x (List.mem_cons_of_mem a hx))

/-- C1: for every non-empty scale and every pitch `(l, o)` produced by the
wrapped module, the quantizer returns some pitch `(m, oct)` whose pitch-class
`m` is a member of the scale and whose octave never decreases (it is `o` or
`o + 1`); on an exact pitch-class match the pitch is returned unchanged;
otherwise, when some entry is strictly greater than `l`, the least such entry
is returned at the same octave; and when every entry is strictly below `l`
(wraparound) the lowest scale entry is returned at exactly one octave above
the input's octave. -/
theorem claim_C1_quantizer (q : PitchQuantizer) (l : Nat) (o : Int) (hne : q.scale ≠ []) :
    ∃ m oct, PitchQuantizer.tick q l o = some (m, oct) ∧
      m ∈ q.scale ∧
      (oct = o ∨ oct = o + 1) ∧
      (l ∈ q.scale → m = l ∧ oct = o) ∧
      (l ∉ q.scale → (∃ x ∈ q.scale, l < x) →
        oct = o ∧ l < m ∧ ∀ x ∈ q.scale, l < x → m ≤ x) ∧
      ((∀ x ∈ q.scale, x < l) → oct = o + 1 ∧ ∀ x ∈ q.scale, m ≤ x) := by
  have hs : (q.scale.insertionSort (· ≤ ·)).Sorted (· ≤ ·) :=
    List.sorted_insertionSort (· ≤ ·) q.scale
  have hmem : ∀ x : Nat, x ∈ q.scale.insertionSort (· ≤ ·) ↔ x ∈ q.scale := fun x =>
    List.mem_insertionSort (· ≤ ·)
  by_cases hc1 : l ∈ q.scale
  · have heq := quantizeLoop_of_mem o (q.scale.insertionSort (· ≤ ·)) l hs ((hmem l).mpr hc1)
    refine ⟨l, o, ?_, hc1, Or.inl rfl, fun _ => ⟨rfl, rfl⟩, fun h _ => absurd hc1 h,
      fun h => absurd (h l hc1) (lt_irrefl l)⟩
    simp only [PitchQuantizer.tick, heq]
  · by_cases hc2 : ∃ x ∈ q.scale, l < x
    · have hnotmem : l ∉ q.scale.insertionSort (· ≤ ·) := fun h => hc1 ((hmem l).mp h)
      have hex : ∃ x ∈ q.scale.insertionSort (· ≤ ·), l < x := by
        rcases hc2 with ⟨x, hx, hlx⟩
        exact ⟨x, (hmem x).mpr hx, hlx⟩
      obtain ⟨m, heq, hm, hlm, hmin⟩ :=
        quantizeLoop_of_gt o (q.scale.insertionSort (· ≤ ·)) l hs hnotmem hex
      refine ⟨m, o, ?_, (hmem m).mp hm, Or.inl rfl, fun h => absurd h hc1,
        fun _ _ => ⟨rfl, hlm, fun x hx hlx => hmin x ((hmem x).mpr hx) hlx⟩,
        fun h => absurd (h m ((hmem m).mp hm)) (by omega)⟩
      simp only [PitchQuantizer.tick, heq]
    · have hall : ∀ x ∈ q.scale, x < l := by
        intro x hx
        have h1 : ¬ l < x := fun h => hc2 ⟨x, hx, h⟩
        have h2 : ¬ x = l := fun h => hc1 (h ▸ hx)
        omega
      have heq := quantizeLoop_of_all_lt o (q.scale.insertionSort (· ≤ ·)) l
        (fun x hx => hall x ((hmem x).mp hx))
      obtain ⟨y, hy⟩ := List.exists_mem_of_ne_nil q.scale hne
      have hyL : y ∈ q.scale.insertionSort (· ≤ ·) := (hmem y).mpr hy
      obtain ⟨a, t, hL⟩ : ∃ a t, q.scale.insertionSort (· ≤ ·) = a :: t := by
        cases hLs : q.scale.insertionSort (· ≤ ·) with
        | nil =>
          rw [hLs] at hyL
          exact absurd hyL (List.not_mem_nil y)
        | cons a t => exact ⟨a, t, rfl⟩
      have haL : a ∈ q.scale.insertionSort (· ≤ ·) := by
        rw [hL]
        exact List.mem_cons_self a t
      have hmin : ∀ x ∈ q.scale.insertionSort (· ≤ ·), a ≤ x := by
        intro x hx
        rw [hL] at hx hs
        rw [List.sorted_cons] at hs
        rcases List.mem_cons.mp hx with h | h
        · omega
        · exact hs.1 x h
      refine ⟨a, o + 1, ?_, (hmem a).mp haL, Or.inr rfl, fun h => absurd h hc1,
        fun _ hex => absurd hex hc2,
        fun _ => ⟨rfl, fun x hx => hmin x ((hmem x).mpr hx)⟩⟩
      rw [hL] at heq
      simp only [PitchQuantizer.tick, hL, heq]

/-- Witness for C1 at the scale `[0, 4, 7]` and the unquantized pitch with
pitch-class 5 and octave 3 (quantized up to pitch-class 7 at octave 3). -/
theorem claim_C1_witness :
    ∃ m oct,
      PitchQuantizer.tick (PitchQuantizer.new [0, 4, 7]) 5 3 = some (m, oct) ∧
      m ∈ (PitchQuantizer.new [0, 4, 7]).scale ∧
      (oct = 3 ∨ oct = 3 + 1) ∧
      (5 ∈ (PitchQuantizer.new [0, 4, 7]).scale → m = 5 ∧ oct = 3) ∧
      (5 ∉ (PitchQuantizer.new [0, 4, 7]).scale →
        (∃ x ∈ (PitchQuantizer.new [0, 4, 7]).scale, 5 < x) →
        oct = 3 ∧ 5 < m ∧ ∀ x ∈ (PitchQuantizer.new [0, 4, 7]).scale, 5 < x → m ≤ x) ∧
      ((∀ x ∈ (PitchQuantizer.new [0, 4, 7]).scale, x < 5) →
        oct = 3 + 1 ∧ ∀ x ∈ (PitchQuantizer.new [0, 4, 7]).scale, m ≤ x) :=
  claim_C1_quantizer (PitchQuantizer.new [0, 4, 7]) 5 3 (by decide)

end SoundGen
